import Mathlib

/-!
Verification development for the GeoChat client core: the location
validator, the response grounding parser, the session store
(load / migrate / sanitize), the conversation controller, and the
viewport synchronizer, shallowly embedded from the TypeScript sources
(`src/App.tsx`, `src/services/gemini.ts`, `src/components/MapComponent.tsx`).
JavaScript numbers are modelled as exact rationals (plus NaN and the two
infinities where the code can observe them); JavaScript runtime values
are modelled by the inductive `JsVal`; fallible JavaScript code (code
that can throw) returns `Option`.
-/

namespace GeoChat

/-- A JavaScript number: a finite value (modelled exactly as a rational),
one of the two infinities, or NaN. -/
inductive JsNum where
  | finite (q : ℚ)
  | posInf
  | negInf
  | nan
deriving DecidableEq

/-- A JavaScript runtime value, as observable by the validators and the
session-store sanitizer: `undefined`, `null`, booleans, numbers, strings,
arrays and plain objects (ordered field lists, unique keys at runtime). -/
inductive JsVal where
  | undef
  | null
  | bool (b : Bool)
  | num (n : JsNum)
  | str (s : String)
  | arr (elems : List JsVal)
  | obj (fields : List (String × JsVal))

/-- The JavaScript `typeof v` (only the cases our values can produce). -/
def jsTypeof : JsVal → String
  | JsVal.undef => "undefined"
  | .null => "object"
  | .bool _ => "boolean"
  | .num _ => "number"
  | .str _ => "string"
  | .arr _ => "object"
  | .obj _ => "object"

/-- JavaScript truthiness. -/
def jsTruthy : JsVal → Bool
  | JsVal.undef => false
  | .null => false
  | .bool b => b
  | .num (.finite q) => decide (q ≠ 0)
  | .num .nan => false
  | .num .posInf => true
  | .num .negInf => true
  | .str s => decide (s ≠ "")
  | .arr _ => true
  | .obj _ => true

/-- Is the value `null` or `undefined` (the two values property access
throws on)? -/
def isNullOrUndef : JsVal → Bool
  | .null => true
  | JsVal.undef => true
  | _ => false

/-- The own enumerable string-keyed fields of a value, as used by property
lookup and object spread: objects expose their fields, arrays and strings
expose index-keyed entries, primitives expose none. -/
def ownFields : JsVal → List (String × JsVal)
  | .obj fs => fs
  | .arr xs => (xs.enum).map (fun p => (toString p.1, p.2))
  | .str s => (s.data.enum).map (fun p => (toString p.1, JsVal.str (String.mk [p.2])))
  | _ => []

/-- Look a key up in a field list (first occurrence; runtime objects have
unique keys); missing keys read as `undefined`. -/
def lookupField : List (String × JsVal) → String → JsVal
  | [], _ => JsVal.undef
  | (k0, v0) :: fs, k => if k0 = k then v0 else lookupField fs k

/-- Set a key in a field list the way a JavaScript object-literal override
does after a spread: replace the value in place when the key exists,
append otherwise. -/
def setField : List (String × JsVal) → String → JsVal → List (String × JsVal)
  | [], k, v => [(k, v)]
  | (k0, v0) :: fs, k, v =>
      if k0 = k then (k0, v) :: fs else (k0, v0) :: setField fs k v

/-- Does the field list carry the key? -/
def containsKey : List (String × JsVal) → String → Bool
  | [], _ => false
  | (k0, _) :: fs, k => if k0 = k then true else containsKey fs k

/-- Property read `v.k` on a value already known not to throw
(missing keys give `undefined`). -/
def getOwn (v : JsVal) (k : String) : JsVal :=
  lookupField (ownFields v) k

/-- Property read `v.k` with throw semantics: `none` models the
`TypeError` raised when `v` is `null` or `undefined`. -/
def jsGetProp (v : JsVal) (k : String) : Option JsVal :=
  match v with
  | .null => none
  | JsVal.undef => none
  | _ => some (getOwn v k)

/-- JavaScript `Number.isNaN v` (no coercion: true only for the NaN number). -/
def jsNumberIsNaN : JsVal → Bool
  | .num .nan => true
  | _ => false

/-- JavaScript `isFinite v` for number arguments. The validators apply it only after
a `typeof v === "number"` guard, so the coercing non-number cases of the
global `isFinite` are unreachable there and modelled as `false`. -/
def jsIsFiniteNum : JsVal → Bool
  | .num (.finite _) => true
  | _ => false

/-- The validator `isValidStoredLoc` from `src/App.tsx` lines 9-21: the value is not
`null`/`undefined`, is of object type, and its `lat` and `lng` fields are
non-NaN finite numbers. -/
def isValidStoredLoc (loc : JsVal) : Bool :=
  !isNullOrUndef loc &&
  jsTypeof loc == "object" &&
  jsTypeof (getOwn loc "lat") == "number" &&
  !jsNumberIsNaN (getOwn loc "lat") &&
  jsIsFiniteNum (getOwn loc "lat") &&
  jsTypeof (getOwn loc "lng") == "number" &&
  !jsNumberIsNaN (getOwn loc "lng") &&
  jsIsFiniteNum (getOwn loc "lng")

/-- The validator `isValidLocation` from `src/components/MapComponent.tsx` lines 33-45;
its body is character-for-character the same check as `isValidStoredLoc`. -/
def isValidLocation (loc : JsVal) : Bool :=
  !isNullOrUndef loc &&
  jsTypeof loc == "object" &&
  jsTypeof (getOwn loc "lat") == "number" &&
  !jsNumberIsNaN (getOwn loc "lat") &&
  jsIsFiniteNum (getOwn loc "lat") &&
  jsTypeof (getOwn loc "lng") == "number" &&
  !jsNumberIsNaN (getOwn loc "lng") &&
  jsIsFiniteNum (getOwn loc "lng")

/-! ## Character-level parsing (`src/services/gemini.ts`)

The coordinate-tag regex `\{\{LAT:(-?\d+\.?\d*),\s*LNG:(-?\d+\.?\d*)\}\}`
and the maps-URI regex `!3d(-?\d+\.?\d*)!4d(-?\d+\.?\d*)` are embedded as
deterministic scanners over `List Char`.  For these patterns the
backtracking regex engine is equivalent to greedy scanning: every greedy
sub-pattern (`\d+`, `\.?\d*`, `\s*`) is followed by a required literal
character that no shorter choice of the greedy part could ever produce,
so giving back characters can never turn a failure into a success. -/

/-- Membership in the JavaScript `\s` character class. -/
def isJsSpace (c : Char) : Bool :=
  c = ' ' || c = '\t' || c = '\n' || c = '\r' ||
  c.val = 0x0b || c.val = 0x0c || c.val = 0xa0 || c.val = 0x1680 ||
  (0x2000 ≤ c.val && c.val ≤ 0x200a) ||
  c.val = 0x2028 || c.val = 0x2029 || c.val = 0x202f || c.val = 0x205f ||
  c.val = 0x3000 || c.val = 0xfeff

/-- Numeric value of a string of decimal digits. -/
def digitsToNat (ds : List Char) : ℕ :=
  ds.foldl (fun a c => 10 * a + (c.toNat - '0'.toNat)) 0

/-- Exact value of a decimal token `[-]intPart[.fracPart]`, i.e. what
`parseFloat` returns on the token captured by `-?\d+\.?\d*` (the token is
short enough in practice that the double rounding of `parseFloat` is
immaterial; we model the value exactly): the integer digits plus the
fraction digits over the matching power of ten. -/
def decimalValue (sign : Bool) (intPart fracPart : List Char) : ℚ :=
  let mag : ℚ :=
    mkRat (digitsToNat intPart * 10 ^ fracPart.length + digitsToNat fracPart)
      (10 ^ fracPart.length)
  if sign then -mag else mag

/-- Consume an exact literal prefix, returning the rest. -/
def eatLit : List Char → List Char → Option (List Char)
  | [], cs => some cs
  | _ :: _, [] => none
  | l :: ls, c :: cs => if c = l then eatLit ls cs else none

/-- Consume the unsigned part `\d+\.?\d*` greedily: a non-empty digit run
`ip`, then a dot part `dp` (either empty or a dot followed by a possibly
empty digit run), returning `(ip, dp, rest)`. -/
def eatUnsigned (cs : List Char) : Option (List Char × List Char × List Char) :=
  let ip := cs.takeWhile Char.isDigit
  let cs2 := cs.dropWhile Char.isDigit
  if ip = [] then none
  else if cs2.head? = some '.' then
    some (ip, '.' :: cs2.tail.takeWhile Char.isDigit, cs2.tail.dropWhile Char.isDigit)
  else some (ip, [], cs2)

/-- Consume a number token matching `-?\d+\.?\d*` greedily, returning the
consumed characters, the parsed value, and the rest. -/
def eatNumber (cs : List Char) : Option (List Char × ℚ × List Char) :=
  if cs.head? = some '-' then
    match eatUnsigned cs.tail with
    | some (ip, dp, rest) => some ('-' :: (ip ++ dp), decimalValue true ip dp.tail, rest)
    | none => none
  else
    match eatUnsigned cs with
    | some (ip, dp, rest) => some (ip ++ dp, decimalValue false ip dp.tail, rest)
    | none => none

/-- The literal characters of the tag opener `{{LAT:`. -/
def tagOpen : List Char := ['\x7b', '\x7b', 'L', 'A', 'T', ':']

/-- The literal characters of the `LNG:` keyword inside the tag. -/
def lngLit : List Char := ['L', 'N', 'G', ':']

/-- The literal characters of the tag closer `}}`. -/
def tagClose : List Char := ['\x7d', '\x7d']

/-- Try to match the coordinate tag at the head of the input; on success
return the matched characters, the two parsed numbers, and the rest. -/
def matchTagAt (cs : List Char) : Option (List Char × ℚ × ℚ × List Char) :=
  match eatLit tagOpen cs with
  | none => none
  | some cs1 =>
    match eatNumber cs1 with
    | none => none
    | some (n1, lat, cs2) =>
      match eatLit [','] cs2 with
      | none => none
      | some cs3 =>
        match eatLit lngLit (cs3.dropWhile isJsSpace) with
        | none => none
        | some cs5 =>
          match eatNumber cs5 with
          | none => none
          | some (n2, lng, cs6) =>
            match eatLit tagClose cs6 with
            | none => none
            | some cs7 =>
              some (tagOpen ++ n1 ++ ',' ::
                  (cs3.takeWhile isJsSpace ++ lngLit ++ n2 ++ tagClose),
                lat, lng, cs7)

/-- Leftmost match of the coordinate tag: `text.match(COORDINATE_REGEX)`.
Returns the text before the match, the matched characters, the two
captured numbers, and the text after the match. -/
def findTag : List Char → Option (List Char × List Char × ℚ × ℚ × List Char)
  | [] => none
  | c :: cs =>
    match matchTagAt (c :: cs) with
    | some (m, lat, lng, rest) => some ([], m, lat, lng, rest)
    | none =>
      match findTag cs with
      | some (p, m, lat, lng, rest) => some (c :: p, m, lat, lng, rest)
      | none => none

/-- Is `needle` a prefix of `hay`? -/
def isPrefixList : List Char → List Char → Bool
  | [], _ => true
  | _ :: _, [] => false
  | n :: ns, h :: hs => n = h && isPrefixList ns hs

/-- JavaScript `hay.replace(needle, '')` with a string pattern: JavaScript removes the
first occurrence of the needle (searching from the start) and leaves the
string unchanged when the needle does not occur (on the empty string the
result is empty whether or not the empty needle matches). -/
def jsReplaceFirst : List Char → List Char → List Char
  | [], _ => []
  | c :: cs, needle =>
    if isPrefixList needle (c :: cs) then (c :: cs).drop needle.length
    else c :: jsReplaceFirst cs needle

/-- JavaScript `String.prototype.trim`: strip `\s` characters from both ends. -/
def jsTrim (cs : List Char) : List Char :=
  ((cs.dropWhile isJsSpace).reverse.dropWhile isJsSpace).reverse

/-- The trim operation on packed strings. -/
def jsTrimS (s : String) : String :=
  String.mk (jsTrim s.data)

/-- The coordinate-tag handling of `sendMessageToGemini`
(`src/services/gemini.ts` lines 87-102): on a match, both captures are
parsed (`parseFloat` of a `-?\d+\.?\d*` token always yields a non-NaN
number, so the `!isNaN` guards always pass) and become the suggested
location, and the matched substring is removed from the display text,
which is then trimmed; with no match the text is returned unchanged. -/
def parseReplyText (text : List Char) : List Char × Option (ℚ × ℚ) :=
  match findTag text with
  | some (_, m, lat, lng, _) => (jsTrim (jsReplaceFirst text m), some (lat, lng))
  | none => (text, none)

/-- Try to match `!3d<number>!4d<number>` at the head of the input. -/
def matchMapsAt (cs : List Char) : Option (ℚ × ℚ) :=
  match eatLit "!3d".data cs with
  | none => none
  | some cs1 =>
    match eatNumber cs1 with
    | none => none
    | some (_, lat, cs2) =>
      match eatLit "!4d".data cs2 with
      | none => none
      | some cs3 =>
        match eatNumber cs3 with
        | none => none
        | some (_, lng, _) => some (lat, lng)

/-- Leftmost occurrence of the maps-URI coordinate pattern
(`uri.match(/!3d(-?\d+\.?\d*)!4d(-?\d+\.?\d*)/)`), values only. -/
def findMapsCoord : List Char → Option (ℚ × ℚ)
  | [] => none
  | c :: cs =>
    match matchMapsAt (c :: cs) with
    | some r => some r
    | none => findMapsCoord cs

/-! ## Grounding chunks and the model reply (`src/services/gemini.ts`) -/

/-- The `web`/`maps` payload of a grounding chunk: an optional URI. -/
structure ChunkSource where
  uri : Option String
  title : Option String := none
deriving DecidableEq

/-- A grounding citation record attached to the AI reply; `maps` is
present exactly for place citations. -/
structure GroundingChunk where
  web : Option ChunkSource := none
  maps : Option ChunkSource := none
deriving DecidableEq

/-- The coordinates one citation contributes
(`src/services/gemini.ts` lines 107-119): the guard
`if (chunk.maps?.uri)` requires a place citation with a truthy
(non-empty) URI, whose first `!3d<number>!4d<number>` occurrence is then
parsed; the parsed captures are never NaN, so the `!isNaN` guards pass. -/
def chunkCoord (c : GroundingChunk) : Option (ℚ × ℚ) :=
  match c.maps with
  | none => none
  | some src =>
    match src.uri with
    | none => none
    | some u => if u = "" then none else findMapsCoord u.data

/-- The `forEach`/`push` loop over the grounding chunks, in order. -/
def collectRelated : List GroundingChunk → List (ℚ × ℚ)
  | [] => []
  | c :: cs =>
    match chunkCoord c with
    | some p => p :: collectRelated cs
    | none => collectRelated cs

/-- Related-location extraction (`src/services/gemini.ts` lines 104-121
and 129): an absent chunk list contributes nothing, and an empty result
list is returned as `undefined` (here `none`) rather than as an empty
array. -/
def extractRelatedLocations (chunks : Option (List GroundingChunk)) : Option (List (ℚ × ℚ)) :=
  let related :=
    match chunks with
    | some l => collectRelated l
    | none => []
  if related.length > 0 then some related else none

/-- A chat message as the app manipulates it (`Message` in `types.ts`,
reconstructed from its uses).  The two location fields hold raw runtime
values: loaded data can put anything there, which is exactly what the
validators guard against. -/
structure Message where
  id : String
  role : String
  text : String
  timestamp : Int
  suggestedLocation : JsVal := JsVal.undef
  relatedLocations : JsVal := JsVal.undef

/-- The fixed fallback answer used when the model returns no text
(`src/services/gemini.ts` line 84). -/
def fallbackAnswer : String := "I couldn\x27t find an answer for that."

/-- The relevant parts of a raw `generateContent` response: the optional
reply text and the optional grounding-chunk list. -/
structure GenaiResponse where
  text : Option String
  groundingChunks : Option (List GroundingChunk)

/-- JavaScript `list.slice(-n)`: the at-most-`n` last elements, order preserved. -/
def jsSliceLast (n : ℕ) (l : List Message) : List Message :=
  l.drop (l.length - n)

/-- The request history window (`src/services/gemini.ts` lines 26-31):
the last 10 history entries, mapped to role/text pairs. -/
def buildHistoryContext (chatHistory : List Message) : List (String × String) :=
  (jsSliceLast 10 chatHistory).map (fun m => (m.role, m.text))

/-- Turn extracted coordinates into the `GeoLocation` object the reply
message stores. -/
def geoObj (p : ℚ × ℚ) : JsVal :=
  .obj [("lat", .num (.finite p.1)), ("lng", .num (.finite p.2))]

/-- The success path of `sendMessageToGemini`
(`src/services/gemini.ts` lines 84-131): apply the fallback to an empty
or absent reply text, parse the coordinate tag out of the text, extract
the related locations from the grounding chunks, and build the model
message. -/
def processGeminiResponse (resp : GenaiResponse) (uuid : String) (now : Int) : Message :=
  let text : String :=
    match resp.text with
    | some t => if t = "" then fallbackAnswer else t
    | none => fallbackAnswer
  let parsed := parseReplyText text.data
  { id := uuid
    role := "model"
    text := String.mk parsed.1
    timestamp := now
    suggestedLocation :=
      match parsed.2 with
      | some p => geoObj p
      | none => JsVal.undef
    relatedLocations :=
      match extractRelatedLocations resp.groundingChunks with
      | some l => .arr (l.map geoObj)
      | none => JsVal.undef }

/-! ## The viewport synchronizer (`MapComponent.tsx` lines 48-83) -/

/-- The command the `MapUpdater` effect issues to the map. -/
inductive ViewportCommand where
  | flyTo (center : ℚ × ℚ) (zoom : ℕ) (duration : ℚ)
  | fitBounds (points : List (ℚ × ℚ)) (paddingX paddingY : ℕ) (maxZoom : ℕ) (duration : ℚ)
  | noOp
deriving DecidableEq

/-- Read the coordinate pair out of an (already validated) location. -/
def locPoint (v : JsVal) : ℚ × ℚ :=
  (match getOwn v "lat" with | .num (.finite q) => q | _ => 0,
   match getOwn v "lng" with | .num (.finite q) => q | _ => 0)

/-- Leaflet semantics of `LatLngBounds.isValid()`: bounds built from a
point list have both corners defined exactly when the list is non-empty
(a single point yields valid, degenerate bounds).  Modelled from the map
library the component calls. -/
def latLngBoundsValid (points : List (ℚ × ℚ)) : Bool :=
  !points.isEmpty

/-- The `MapUpdater` effect body (`MapComponent.tsx` lines 51-80): with at
least one valid related location, fit bounds around the valid related
points plus the valid target; otherwise fly to a valid target; otherwise
do nothing. -/
def mapUpdater (targetLocation : JsVal) (relatedLocations : Option (List JsVal)) : ViewportCommand :=
  let validRelated :=
    match relatedLocations with
    | some l => l.filter isValidLocation
    | none => []
  if validRelated.length > 0 then
    let points := validRelated.map locPoint
    let points := if isValidLocation targetLocation then points ++ [locPoint targetLocation] else points
    if points.length > 0 then
      if latLngBoundsValid points then .fitBounds points 50 50 15 (3/2) else .noOp
    else .noOp
  else
    if isValidLocation targetLocation then .flyTo (locPoint targetLocation) 15 2 else .noOp

/-- The viewport decision as the amended claim words it: a non-empty set
of valid related locations always yields `FitBounds` over those points
plus the valid target (even for a single point); otherwise a valid target
yields `FlyTo` with the fixed zoom and duration; otherwise `NoOp`. -/
def decideSpecAmended (target : JsVal) (related : Option (List JsVal)) : ViewportCommand :=
  let valids :=
    match related with
    | some l => l.filter isValidLocation
    | none => []
  match valids with
  | [] => if isValidLocation target then .flyTo (locPoint target) 15 2 else .noOp
  | _ :: _ =>
      .fitBounds (valids.map locPoint ++ (if isValidLocation target then [locPoint target] else []))
        50 50 15 (3/2)

/-! ## The session store (`src/App.tsx` lines 39-82)

Stored blobs are opaque serialized text; we model each `localStorage`
slot as `Option (Option JsVal)`: `none` when the key is absent (or the
stored string is empty, which the truthiness guard also skips),
`some none` when `JSON.parse` throws, and `some (some v)` when it parses
to `v`.  A thrown exception anywhere inside the `try` block is modelled
by `Option`: `none` propagates to the `catch`, which returns `[]`. -/

/-- JavaScript `xs.map f` where `f` can throw: stop at the first exception. -/
def mapOrThrow (f : JsVal → Option JsVal) : List JsVal → Option (List JsVal)
  | [] => some []
  | x :: xs =>
    match f x with
    | none => none
    | some y =>
      match mapOrThrow f xs with
      | none => none
      | some ys => some (y :: ys)

/-- The per-message sanitization
(`src/App.tsx` lines 48-52 and 63-67):
`{...m, suggestedLocation: isValidStoredLoc(m.suggestedLocation) ? m.suggestedLocation : undefined,
relatedLocations: m.relatedLocations?.filter(isValidStoredLoc)}`.
Property access on a nullish message throws; `?.filter` on a present
non-array value throws; both are modelled by `none`. -/
def sanitizeMessageJs (m : JsVal) : Option JsVal :=
  match jsGetProp m "suggestedLocation" with
  | none => none
  | some sug =>
    match jsGetProp m "relatedLocations" with
    | none => none
    | some rel =>
      match (match rel with
             | JsVal.undef => some JsVal.undef
             | .null => some JsVal.undef
             | .arr xs => some (.arr (xs.filter isValidStoredLoc))
             | _ => none) with
      | none => none
      | some relOut =>
        some (.obj (setField
          (setField (ownFields m) "suggestedLocation"
            (if isValidStoredLoc sug then sug else JsVal.undef))
          "relatedLocations" relOut))

/-- The per-session sanitization (`src/App.tsx` lines 46-53):
`{...s, messages: s.messages.map(sanitizeMessage)}`; `.map` on a missing
or non-array `messages` throws. -/
def sanitizeSessionJs (s : JsVal) : Option JsVal :=
  match jsGetProp s "messages" with
  | none => none
  | some msgs =>
    match msgs with
    | .arr xs =>
      match mapOrThrow sanitizeMessageJs xs with
      | none => none
      | some ys => some (.obj (setField (ownFields s) "messages" (.arr ys)))
    | _ => none

/-- The session object the legacy migration synthesizes
(`src/App.tsx` lines 69-74). -/
def mkRestoredSession (uuid : String) (msgs : List JsVal) (now : Int) : JsVal :=
  .obj [("id", .str uuid), ("title", .str "Restored Chat"),
        ("messages", .arr msgs), ("updatedAt", .num (.finite (now : ℚ)))]

/-- The legacy single-history fallback (`src/App.tsx` lines 58-77): a
present, parseable, truthy, non-empty message array is sanitized and
wrapped into one freshly generated session; anything else falls through
to the empty collection, and a parse or sanitize exception propagates. -/
def legacyLoad (old : Option (Option JsVal)) (uuid : String) (now : Int) : Option (List JsVal) :=
  match old with
  | none => some []
  | some none => none
  | some (some v) =>
    if jsTruthy v then
      match v with
      | .arr ms =>
        if ms.length > 0 then
          match mapOrThrow sanitizeMessageJs ms with
          | none => none
          | some sm => some [mkRestoredSession uuid sm now]
        else some []
      | _ => some []
    else some []

/-- The sessions initializer (`src/App.tsx` lines 39-82): a parseable
multi-session array is sanitized and returned; otherwise the legacy
record is consulted; any exception (unparseable blob, malformed session
or message shape) is caught and yields the empty collection, so no
exception escapes. -/
def loadSessions (saved old : Option (Option JsVal)) (uuid : String) (now : Int) : List JsVal :=
  (match saved with
   | none => legacyLoad old uuid now
   | some none => none
   | some (some v) =>
     match v with
     | .arr ss => mapOrThrow sanitizeSessionJs ss
     | _ => legacyLoad old uuid now).getD []

/-! ## Conversation controller state (`src/App.tsx`) -/

/-- A chat session as held in component state. -/
structure ChatSession where
  id : String
  title : String
  messages : List Message
  updatedAt : Int

/-- The component state touched by the handlers under verification. -/
structure AppState where
  userLocation : JsVal
  targetLocation : JsVal
  input : String
  isLoading : Bool
  isMobileMapOpen : Bool
  isSidebarOpen : Bool
  sessions : List ChatSession
  currentSessionId : Option String
  messages : List Message

/-- The fixed apology appended when the AI call fails
(`src/App.tsx` line 269). -/
def errorReplyText : String :=
  "I\x27m having trouble connecting to my map data right now. Please try again."

/-- The handler `handleSendMessage` (`src/App.tsx` lines 229-275), with the awaited
AI call abstracted as its `Except` outcome and the generated ids and the
clock passed in.  The guard rejects blank text and an in-flight send
before any state is touched; on success the reply is appended and a
truthy, valid suggested location replaces the target; on failure the
fixed apology (with no location fields) is appended; `isLoading` ends
`false` either way. -/
def handleSendMessage (st : AppState) (textOverride : Option String)
    (userUuid replyUuid : String) (now : Int)
    (result : Except String Message) : AppState :=
  let textToSend := textOverride.getD st.input
  if jsTrimS textToSend = "" || st.isLoading then st
  else
    let userMsg : Message :=
      { id := userUuid, role := "user", text := jsTrimS textToSend, timestamp := now }
    let st1 := { st with
      messages := st.messages ++ [userMsg]
      input := ""
      isMobileMapOpen :=
        if (match textOverride with | some t => decide (t ≠ "") | none => false)
            && st.isMobileMapOpen then false
        else st.isMobileMapOpen }
    match result with
    | .ok response =>
      let st2 := { st1 with messages := st1.messages ++ [response] }
      let st3 :=
        if jsTruthy response.suggestedLocation && isValidStoredLoc response.suggestedLocation then
          { st2 with targetLocation := response.suggestedLocation }
        else st2
      { st3 with isLoading := false }
    | .error _ =>
      { st1 with
        messages := st1.messages ++
          [{ id := replyUuid, role := "model", text := errorReplyText, timestamp := now }]
        isLoading := false }

/-- The map-target restoration inside `loadSession`
(`src/App.tsx` lines 163-169): scan the messages newest-first for the
first one with a truthy `suggestedLocation`; set the target to it when it
passes the validator, otherwise clear the target. -/
def restoreTargetFromMessages (msgs : List Message) : JsVal :=
  match msgs.reverse.find? (fun m => jsTruthy m.suggestedLocation) with
  | some m =>
    if jsTruthy m.suggestedLocation && isValidStoredLoc m.suggestedLocation then
      m.suggestedLocation
    else .null
  | none => .null

/-- The handler `loadSession` (`src/App.tsx` lines 157-173): switch to the named
session, replacing the active messages and recomputing the map target. -/
def loadSession (st : AppState) (sessionId : String) : AppState :=
  match st.sessions.find? (fun s => s.id == sessionId) with
  | some s =>
    { st with
      currentSessionId := some sessionId
      messages := s.messages
      targetLocation := restoreTargetFromMessages s.messages
      isSidebarOpen := false }
  | none => st

/-- The related locations the map is fed, derived from the newest model
message (`src/App.tsx` lines 222-225); part of the spec's map viewport
state. -/
def derivedRelatedLocations (msgs : List Message) : JsVal :=
  match msgs.reverse.find? (fun m => m.role == "model") with
  | some m => m.relatedLocations
  | none => JsVal.undef

/-! ## Concrete values used by witnesses and counterexamples -/

/-- JavaScript `Array.isArray`. -/
def isJsArr : JsVal → Bool
  | .arr _ => true
  | _ => false

/-- The spec example reply carrying a coordinate tag. -/
def exampleReply : String := "Visit the tower. \x7b\x7bLAT:48.8584, LNG:2.2945\x7d\x7d"

/-- The tag substring inside `exampleReply`. -/
def exampleTag : String := "\x7b\x7bLAT:48.8584, LNG:2.2945\x7d\x7d"

/-- A maps grounding URI carrying a `!3d…!4d…` coordinate pair. -/
def tokyoUri : String := "https://maps.google.com/?cid=123!3d35.6895!4d139.6917!5e0"

/-- A place citation whose URI carries coordinates. -/
def tokyoChunk : GroundingChunk := { maps := some { uri := some tokyoUri } }

/-- A web-only citation: contributes no related location. -/
def webOnlyChunk : GroundingChunk := { web := some { uri := some "https://example.com/article" } }

/-- A valid in-range location object. -/
def tokyoLoc : JsVal :=
  .obj [("lat", .num (.finite (356895/10000))), ("lng", .num (.finite (1396917/10000)))]

/-- A location object with finite numeric fields far outside
`[-90,90]×[-180,180]`. -/
def outOfRangeLoc : JsVal :=
  .obj [("lat", .num (.finite 100)), ("lng", .num (.finite 200))]

/-- A model reply suggesting the out-of-range location. -/
def outOfRangeReply : Message :=
  { id := "r1", role := "model", text := "ok", timestamp := 1,
    suggestedLocation := outOfRangeLoc }

/-- An idle app state with pending input. -/
def baseState : AppState :=
  { userLocation := .null, targetLocation := .null, input := "hi",
    isLoading := false, isMobileMapOpen := false, isSidebarOpen := false,
    sessions := [], currentSessionId := none, messages := [] }

/-- The same state while a send is in flight. -/
def pendingState : AppState := { baseState with isLoading := true }

/-- A model message carrying related locations. -/
def relatedMsg : Message :=
  { id := "m0", role := "model", text := "places", timestamp := 0,
    relatedLocations := .arr [tokyoLoc] }

/-- A state whose newest model message carries related locations. -/
def relatedState : AppState :=
  { baseState with messages := [relatedMsg], input := "more" }

/-- An older message with a valid suggested location. -/
def validSuggestionMsg : Message :=
  { id := "m1", role := "model", text := "older", timestamp := 1,
    suggestedLocation := tokyoLoc }

/-- A newer message whose suggested location is present (truthy) but
fails the validator. -/
def invalidSuggestionMsg : Message :=
  { id := "m2", role := "model", text := "newer", timestamp := 2,
    suggestedLocation := .obj [("lat", .str "oops"), ("lng", .num (.finite 5))] }

/-- A session holding both messages, newest last. -/
def mixedSession : ChatSession :=
  { id := "s1", title := "Trip", messages := [validSuggestionMsg, invalidSuggestionMsg],
    updatedAt := 3 }

/-- A state holding `mixedSession`. -/
def mixedState : AppState := { baseState with sessions := [mixedSession] }

/-- A legacy stored message whose `suggestedLocation` is corrupted. -/
def corruptLegacyMsg : JsVal :=
  .obj [("id", .str "m9"), ("role", .str "user"), ("text", .str "hello"),
        ("timestamp", .num (.finite 4)),
        ("suggestedLocation", .obj [("lat", .str "bad"), ("lng", .num (.finite 0))])]

/-- The sanitized form of `corruptLegacyMsg`: the corrupted
`suggestedLocation` became `undefined`, everything else is intact. -/
def corruptLegacyMsgClean : JsVal :=
  .obj [("id", .str "m9"), ("role", .str "user"), ("text", .str "hello"),
        ("timestamp", .num (.finite 4)),
        ("suggestedLocation", JsVal.undef), ("relatedLocations", JsVal.undef)]

/-- A stored session wrapping `corruptLegacyMsg`. -/
def tinySessionJs : JsVal :=
  .obj [("id", .str "s0"), ("title", .str "T"),
        ("messages", .arr [corruptLegacyMsg]), ("updatedAt", .num (.finite 1))]

/-- The sanitized form of `tinySessionJs`. -/
def tinySessionJsClean : JsVal :=
  .obj [("id", .str "s0"), ("title", .str "T"),
        ("messages", .arr [corruptLegacyMsgClean]), ("updatedAt", .num (.finite 1))]

/-! ## Field-list lemmas -/

theorem lookupField_setField_self (fs : List (String × JsVal)) (k : String) (v : JsVal) :
    lookupField (setField fs k v) k = v := by
  induction fs with
  | nil => simp [setField, lookupField]
  | cons f fs ih =>
    obtain ⟨k0, v0⟩ := f
    by_cases h : k0 = k
    · simp [setField, lookupField, h]
    · simp [setField, lookupField, h, ih]

theorem lookupField_setField_ne (fs : List (String × JsVal)) (k k2 : String) (v : JsVal)
    (h : k2 ≠ k) : lookupField (setField fs k v) k2 = lookupField fs k2 := by
  induction fs with
  | nil =>
    simp only [setField, lookupField]
    rw [if_neg (fun hh => h (hh.symm))]
  | cons f fs ih =>
    obtain ⟨k0, v0⟩ := f
    by_cases h0 : k0 = k
    · subst h0
      simp only [setField, if_pos rfl, lookupField]
      rw [if_neg (fun hh => h (hh.symm)), if_neg (fun hh => h (hh.symm))]
    · simp only [setField, if_neg h0, lookupField]
      by_cases h2 : k0 = k2
      · rw [if_pos h2, if_pos h2]
      · rw [if_neg h2, if_neg h2, ih]

theorem containsKey_setField_self (fs : List (String × JsVal)) (k : String) (v : JsVal) :
    containsKey (setField fs k v) k = true := by
  induction fs with
  | nil => simp [setField, containsKey]
  | cons f fs ih =>
    obtain ⟨k0, v0⟩ := f
    by_cases h : k0 = k
    · simp only [setField, if_pos h, containsKey]
    · simp only [setField, if_neg h, containsKey]
      exact ih

theorem containsKey_setField_mono (fs : List (String × JsVal)) (k k2 : String) (v : JsVal)
    (h : containsKey fs k2 = true) : containsKey (setField fs k v) k2 = true := by
  induction fs with
  | nil => simp [containsKey] at h
  | cons f fs ih =>
    obtain ⟨k0, v0⟩ := f
    by_cases h0 : k0 = k
    · simp only [setField, if_pos h0, containsKey]
      simp only [containsKey] at h
      exact h
    · simp only [setField, if_neg h0, containsKey]
      simp only [containsKey] at h
      by_cases h2 : k0 = k2
      · rw [if_pos h2]
      · rw [if_neg h2]
        rw [if_neg h2] at h
        exact ih h

theorem setField_of_lookup_eq (fs : List (String × JsVal)) (k : String) (v : JsVal)
    (hc : containsKey fs k = true) (hl : lookupField fs k = v) : setField fs k v = fs := by
  induction fs with
  | nil => simp [containsKey] at hc
  | cons f fs ih =>
    obtain ⟨k0, v0⟩ := f
    by_cases h : k0 = k
    · simp only [lookupField, if_pos h] at hl
      simp [setField, if_pos h, hl]
    · simp only [containsKey, if_neg h] at hc
      simp only [lookupField, if_neg h] at hl
      simp [setField, if_neg h, ih hc hl]

/-! ## C1: the location validator -/

theorem jsIsFiniteNum_iff (x : JsVal) :
    jsIsFiniteNum x = true ↔ ∃ q, x = .num (.finite q) := by
  cases x with
  | num n =>
    cases n with
    | finite q => simp [jsIsFiniteNum]
    | posInf => simp [jsIsFiniteNum]
    | negInf => simp [jsIsFiniteNum]
    | nan => simp [jsIsFiniteNum]
  | undef => simp [jsIsFiniteNum]
  | null => simp [jsIsFiniteNum]
  | bool b => simp [jsIsFiniteNum]
  | str s => simp [jsIsFiniteNum]
  | arr xs => simp [jsIsFiniteNum]
  | obj fs => simp [jsIsFiniteNum]

/-- Claim C1, counterexample. The claim states that the validator accepts
an input only when `-90 ≤ lat ≤ 90` and `-180 ≤ lng ≤ 180` and that an
out-of-range location never becomes `targetLocation`; but
`isValidStoredLoc` has no range check at all: the location
`{lat: 100, lng: 200}` is accepted, and a model reply suggesting it makes
it the map target. -/
theorem c1_counterexample :
    isValidStoredLoc outOfRangeLoc = true ∧
    getOwn outOfRangeLoc "lat" = .num (.finite 100) ∧
    ¬ ((100 : ℚ) ≤ 90) ∧
    getOwn outOfRangeLoc "lng" = .num (.finite 200) ∧
    ¬ ((200 : ℚ) ≤ 180) ∧
    (handleSendMessage baseState none "u1" "r1" 5 (.ok outOfRangeReply)).targetLocation
      = outOfRangeLoc := by
  refine ⟨rfl, rfl, by norm_num, rfl, by norm_num, rfl⟩

/-- Claim C1, amended: the validator accepts an input iff it is an object
(not `null`/`undefined`) whose `lat` and `lng` fields are finite numbers —
NaN, the infinities, missing fields and non-numeric field types are all
rejected, but there is no range restriction.  The two validator copies
(`isValidStoredLoc` in `App.tsx`, `isValidLocation` in
`MapComponent.tsx`) agree on every input. -/
theorem c1_validator_accepts_iff_finite_numeric (v : JsVal) :
    (isValidStoredLoc v = true ↔
      jsTypeof v = "object" ∧ v ≠ JsVal.null ∧ v ≠ JsVal.undef ∧
      (∃ la, getOwn v "lat" = .num (.finite la)) ∧
      (∃ ln, getOwn v "lng" = .num (.finite ln))) ∧
    isValidLocation v = isValidStoredLoc v := by
  constructor
  · constructor
    · intro h
      simp only [isValidStoredLoc, Bool.and_eq_true, beq_iff_eq, Bool.not_eq_true'] at h
      obtain ⟨⟨⟨⟨⟨⟨⟨h1, h2⟩, h3⟩, h4⟩, h5⟩, h6⟩, h7⟩, h8⟩ := h
      refine ⟨h2, ?_, ?_, ?_, ?_⟩
      · intro hv; subst hv; simp [isNullOrUndef] at h1
      · intro hv; subst hv; simp [isNullOrUndef] at h1
      · exact (jsIsFiniteNum_iff _).1 h5
      · exact (jsIsFiniteNum_iff _).1 h8
    · rintro ⟨hobj, hnull, hundef, ⟨la, hla⟩, ⟨ln, hln⟩⟩
      have h1 : isNullOrUndef v = false := by
        cases v with
        | null => exact absurd rfl hnull
        | undef => exact absurd rfl hundef
        | bool b => rfl
        | num n => rfl
        | str s => rfl
        | arr xs => rfl
        | obj fs => rfl
      simp [isValidStoredLoc, h1, hobj, hla, hln, jsNumberIsNaN, jsIsFiniteNum]
      exact ⟨rfl, rfl⟩
  · rfl

/-! ## C3: the viewport synchronizer -/

/-- Claim C3, counterexample. The claim states the decision is `NoOp`
when the enclosing rectangle is degenerate (a single point or empty); but
with a single valid related location and no target the code still issues
`FitBounds` over that one point (Leaflet bounds built from one point are
valid), not `NoOp`. -/
theorem c3_counterexample :
    mapUpdater JsVal.null (some [tokyoLoc]) =
      ViewportCommand.fitBounds [(356895/10000, 1396917/10000)] 50 50 15 (3/2) ∧
    mapUpdater JsVal.null (some [tokyoLoc]) ≠ ViewportCommand.noOp := by
  constructor
  · rfl
  · decide

/-- Claim C3, amended: if the set of valid related locations is non-empty,
a `FitBounds` command over those points plus the valid target (if any) is
always issued — including when the point set is a single point, since the
bounds of a non-empty point list are valid — and this takes precedence
over flying to the single target; otherwise a valid target yields
`FlyTo(target, zoom 15, duration 2)`; otherwise `NoOp`. -/
theorem c3_viewport_decision (t : JsVal) (r : Option (List JsVal)) :
    mapUpdater t r = decideSpecAmended t r := by
  unfold mapUpdater decideSpecAmended
  cases r with
  | none => simp
  | some l =>
    cases hf : l.filter isValidLocation with
    | nil => simp [hf]
    | cons x xs =>
      by_cases ht : isValidLocation t = true
      · simp [hf, ht, latLngBoundsValid, List.isEmpty]
      · simp only [Bool.not_eq_true] at ht
        simp [hf, ht, latLngBoundsValid, List.isEmpty]

/-! ## C7: the send guard -/

/-- Claim C7: calling send with blank/whitespace-only text, or while a
previous send is still pending, is a no-op — the entire state (messages,
sessions, map state, the loading flag) is returned unchanged, whatever
the outcome of any request would have been, so nothing is queued and the
pending request is untouched. -/
theorem c7_send_guard_noop (st : AppState) (ov : Option String) (u1 u2 : String)
    (now : Int) (res : Except String Message)
    (h : jsTrimS (ov.getD st.input) = "" ∨ st.isLoading = true) :
    handleSendMessage st ov u1 u2 now res = st := by
  unfold handleSendMessage
  rcases h with h | h
  · simp [h]
  · simp [h]

/-- Witness for C7 at a concrete pending state. -/
theorem c7_send_guard_noop_witness :
    pendingState.isLoading = true ∧
    handleSendMessage pendingState none "u1" "u2" 3 (.error "x") = pendingState :=
  ⟨rfl, c7_send_guard_noop pendingState none "u1" "u2" 3 (.error "x") (Or.inr rfl)⟩

/-! ## C8: the failure path of send -/

/-- Claim C8, counterexample. The claim states that on failure of the AI
call, targetLocation and the rest of map state are left unchanged; but
the map's related-locations layer is derived from the newest model
message, and the appended apology is a model message with no
`relatedLocations`, so that part of the map state changes from the
previous model message's locations to absent. -/
theorem c8_counterexample :
    derivedRelatedLocations relatedState.messages = JsVal.arr [tokyoLoc] ∧
    derivedRelatedLocations
      (handleSendMessage relatedState none "u1" "r1" 9 (.error "boom")).messages
      = JsVal.undef ∧
    JsVal.arr [tokyoLoc] ≠ JsVal.undef := by
  refine ⟨rfl, rfl, fun h => JsVal.noConfusion h⟩

/-- Claim C8, amended: when the external AI call fails, send appends
exactly one fixed apology message (after the optimistic user message)
with no location fields, leaves `targetLocation` and `userLocation`
unchanged, and produces a state independent of the error text, so the
underlying error never appears in the transcript (the derived
related-locations layer, fed by the newest model message, may become
absent; the appended messages are then propagated into the active
session by the messages-to-session sync effect). -/
theorem c8_error_appends_fixed_apology (st : AppState) (ov : Option String)
    (u1 u2 : String) (now : Int) (err : String)
    (h1 : ¬ jsTrimS (ov.getD st.input) = "") (h2 : st.isLoading = false) :
    (handleSendMessage st ov u1 u2 now (.error err)).messages =
      st.messages ++
        [{ id := u1, role := "user", text := jsTrimS (ov.getD st.input), timestamp := now },
         { id := u2, role := "model", text := errorReplyText, timestamp := now }] ∧
    (handleSendMessage st ov u1 u2 now (.error err)).targetLocation = st.targetLocation ∧
    (handleSendMessage st ov u1 u2 now (.error err)).userLocation = st.userLocation ∧
    (∀ err2, handleSendMessage st ov u1 u2 now (.error err2) =
      handleSendMessage st ov u1 u2 now (.error err)) ∧
    ({ id := u2, role := "model", text := errorReplyText, timestamp := now } : Message).suggestedLocation = JsVal.undef ∧
    ({ id := u2, role := "model", text := errorReplyText, timestamp := now } : Message).relatedLocations = JsVal.undef := by
  unfold handleSendMessage
  simp [h1, h2]

/-- Witness for C8 at a concrete failed send. -/
theorem c8_error_appends_fixed_apology_witness :
    (handleSendMessage relatedState none "u1" "u2" 9 (.error "boom")).messages =
      relatedState.messages ++
        [{ id := "u1", role := "user", text := jsTrimS relatedState.input, timestamp := 9 },
         { id := "u2", role := "model", text := errorReplyText, timestamp := 9 }] ∧
    (handleSendMessage relatedState none "u1" "u2" 9 (.error "boom")).targetLocation
      = relatedState.targetLocation :=
  let h := c8_error_appends_fixed_apology relatedState none "u1" "u2" 9 "boom"
    (by decide) rfl
  ⟨h.1, h.2.1⟩

/-! ## C9: switching sessions -/

/-- Claim C9, counterexample. The claim states that `switchTo` scans the
session's messages newest-first for the first message whose
`suggestedLocation` passes the validator; but the code scans for the
first message with a *present* (truthy) `suggestedLocation` and only then
validates it: with a newer message carrying an invalid-but-present
location above an older message carrying a valid one, the code clears the
target instead of using the older valid location. -/
theorem c9_counterexample :
    (loadSession mixedState "s1").targetLocation = JsVal.null ∧
    mixedSession.messages.reverse.find?
        (fun m => isValidStoredLoc m.suggestedLocation) = some validSuggestionMsg ∧
    validSuggestionMsg.suggestedLocation = tokyoLoc ∧
    isValidStoredLoc tokyoLoc = true ∧
    tokyoLoc ≠ JsVal.null := by
  refine ⟨rfl, rfl, rfl, rfl, fun h => ?_⟩
  rw [tokyoLoc] at h
  exact JsVal.noConfusion h

/-- Claim C9, amended: `switchTo(id)` replaces the active messages with
the target session's messages; the new `targetLocation` is determined by
the newest message with a present (truthy) `suggestedLocation` — it is
set to that location if it passes the validator and cleared otherwise
(in particular cleared when no message has one). -/
theorem c9_load_session_target (st : AppState) (sid : String) (s : ChatSession)
    (h : st.sessions.find? (fun x => x.id == sid) = some s) :
    (loadSession st sid).messages = s.messages ∧
    (loadSession st sid).currentSessionId = some sid ∧
    (loadSession st sid).targetLocation =
      (match s.messages.reverse.find? (fun m => jsTruthy m.suggestedLocation) with
       | some m => if isValidStoredLoc m.suggestedLocation then m.suggestedLocation
                   else JsVal.null
       | none => JsVal.null) := by
  unfold loadSession
  rw [h]
  refine ⟨rfl, rfl, ?_⟩
  show restoreTargetFromMessages s.messages = _
  unfold restoreTargetFromMessages
  cases hf : s.messages.reverse.find? (fun m => jsTruthy m.suggestedLocation) with
  | none => rfl
  | some m =>
    have ht := List.find?_some hf
    simp [ht]

/-- Witness for C9 at the concrete mixed session. -/
theorem c9_load_session_target_witness :
    (loadSession mixedState "s1").messages = mixedSession.messages ∧
    (loadSession mixedState "s1").targetLocation =
      (match mixedSession.messages.reverse.find? (fun m => jsTruthy m.suggestedLocation) with
       | some m => if isValidStoredLoc m.suggestedLocation then m.suggestedLocation
                   else JsVal.null
       | none => JsVal.null) :=
  let h := c9_load_session_target mixedState "s1" mixedSession rfl
  ⟨h.1, h.2.2⟩

/-! ## C10: fallback text and the history window -/

/-- Claim C10: when the raw response text is empty or absent, the
returned model message's visible text is exactly the fixed fallback
string (the fallback contains no coordinate tag, so the tag parser leaves
it untouched); and the request history window is the suffix of the
at-most-10 most recent history entries, mapped to role/text pairs in
their original oldest-first order. -/
theorem c10_fallback_and_history_window :
    (∀ (resp : GenaiResponse) (uuid : String) (now : Int),
        resp.text = none ∨ resp.text = some "" →
        (processGeminiResponse resp uuid now).text = "I couldn\x27t find an answer for that.") ∧
    (∀ h : List Message, ∃ tail pre : List Message,
        h = pre ++ tail ∧ tail.length ≤ 10 ∧ tail.length = min h.length 10 ∧
        buildHistoryContext h = tail.map (fun m => (m.role, m.text))) := by
  constructor
  · intro resp uuid now hresp
    obtain ⟨t, gc⟩ := resp
    rcases hresp with h | h
    · simp only at h
      subst h
      rfl
    · simp only at h
      subst h
      rfl
  · intro h
    refine ⟨h.drop (h.length - 10), h.take (h.length - 10),
      (List.take_append_drop _ _).symm, ?_, ?_, rfl⟩
    · rw [List.length_drop]; omega
    · rw [List.length_drop]; omega

/-- Witness for C10 on an absent response text. -/
theorem c10_fallback_witness :
    (processGeminiResponse { text := none, groundingChunks := none } "u" 0).text =
      "I couldn\x27t find an answer for that." :=
  c10_fallback_and_history_window.1 { text := none, groundingChunks := none } "u" 0 (Or.inl rfl)

/-! ## C2: the coordinate-tag parser

The key facts: a successful `matchTagAt` consumed exactly the matched
characters, and matching is insensitive to what follows the match — so
the leftmost regex match is also the first occurrence of the matched
substring, and `text.replace(match[0], '')` removes exactly the matched
span. -/

theorem eatLit_eq_append (l : List Char) : ∀ {cs r : List Char}, eatLit l cs = some r → cs = l ++ r := by
  induction l with
  | nil =>
    intro cs r h
    simp only [eatLit, Option.some.injEq] at h
    simp [h]
  | cons c cs ih =>
    intro xs r h
    cases xs with
    | nil => simp [eatLit] at h
    | cons x xs =>
      simp only [eatLit] at h
      by_cases hx : x = c
      · rw [if_pos hx] at h
        rw [List.cons_append, ← ih h, hx]
      · rw [if_neg hx] at h
        exact absurd h (by simp)

theorem eatLit_append (l t : List Char) : eatLit l (l ++ t) = some t := by
  induction l with
  | nil => rfl
  | cons c cs ih => simp [eatLit, ih]

theorem takeWhile_append_cons (p : Char → Bool) (a : List Char) (c : Char) (b : List Char)
    (ha : ∀ x ∈ a, p x = true) (hc : p c = false) :
    (a ++ c :: b).takeWhile p = a := by
  induction a with
  | nil => simp [List.takeWhile_cons, hc]
  | cons x xs ih =>
    have hx : p x = true := ha x (by simp)
    rw [List.cons_append, List.takeWhile_cons, if_pos hx,
      ih (fun y hy => ha y (by simp [hy]))]

theorem dropWhile_append_cons (p : Char → Bool) (a : List Char) (c : Char) (b : List Char)
    (ha : ∀ x ∈ a, p x = true) (hc : p c = false) :
    (a ++ c :: b).dropWhile p = c :: b := by
  induction a with
  | nil => simp [List.dropWhile_cons, hc]
  | cons x xs ih =>
    have hx : p x = true := ha x (by simp)
    rw [List.cons_append, List.dropWhile_cons, if_pos hx,
      ih (fun y hy => ha y (by simp [hy]))]

theorem dot_not_digit : ('.' : Char).isDigit = false := by decide

theorem dash_not_digit : ('-' : Char).isDigit = false := by decide

/-- Inversion for the unsigned matcher: what a successful match tells us
about the input and the pieces. -/
theorem eatUnsigned_inv {cs ip dp rest : List Char}
    (h : eatUnsigned cs = some (ip, dp, rest)) :
    cs = ip ++ dp ++ rest ∧ ip ≠ [] ∧ (∀ x ∈ ip, x.isDigit = true) ∧
    (dp = [] ∨ ∃ fp, dp = '.' :: fp ∧ ∀ x ∈ fp, x.isDigit = true) := by
  simp only [eatUnsigned] at h
  by_cases hip : cs.takeWhile Char.isDigit = []
  · rw [if_pos hip] at h; exact absurd h (by simp)
  · rw [if_neg hip] at h
    have hipd : ∀ x ∈ cs.takeWhile Char.isDigit, x.isDigit = true :=
      fun x hx => List.mem_takeWhile_imp hx
    have hsplit : cs.takeWhile Char.isDigit ++ cs.dropWhile Char.isDigit = cs :=
      List.takeWhile_append_dropWhile _ _
    by_cases hdot : (cs.dropWhile Char.isDigit).head? = some '.'
    · rw [if_pos hdot] at h
      simp only [Option.some.injEq, Prod.mk.injEq] at h
      obtain ⟨hik, hdk, hrk⟩ := h
      obtain ⟨ds, hds⟩ : ∃ ds, cs.dropWhile Char.isDigit = '.' :: ds := by
        cases hd : cs.dropWhile Char.isDigit with
        | nil => rw [hd] at hdot; exact absurd hdot (by simp)
        | cons d ds =>
          rw [hd] at hdot
          simp only [List.head?, Option.some.injEq] at hdot
          exact ⟨ds, by rw [hdot]⟩
      have hfsplit : ds.takeWhile Char.isDigit ++ ds.dropWhile Char.isDigit = ds :=
        List.takeWhile_append_dropWhile _ _
      refine ⟨?_, hik ▸ hip, hik ▸ hipd, Or.inr ⟨ds.takeWhile Char.isDigit, ?_, ?_⟩⟩
      · rw [← hik, ← hdk, ← hrk, hds]
        calc cs = cs.takeWhile Char.isDigit ++ cs.dropWhile Char.isDigit := hsplit.symm
          _ = _ := by
            rw [hds]
            simp only [List.tail_cons, List.cons_append, List.append_assoc]
            rw [hfsplit]
      · rw [← hdk, hds]
        rfl
      · exact fun x hx => List.mem_takeWhile_imp hx
    · rw [if_neg hdot] at h
      simp only [Option.some.injEq, Prod.mk.injEq] at h
      obtain ⟨hik, hdk, hrk⟩ := h
      refine ⟨?_, hik ▸ hip, hik ▸ hipd, Or.inl hdk.symm⟩
      rw [← hik, ← hdk, ← hrk]
      rw [List.append_nil]
      exact hsplit.symm

/-- Replay for the unsigned matcher: the match result does not depend on
what follows the consumed characters, as long as the first following
character can extend neither digit run nor start the dot part. -/
theorem eatUnsigned_replay {cs ip dp rest : List Char}
    (h : eatUnsigned cs = some (ip, dp, rest))
    (c : Char) (t : List Char) (hcd : c.isDigit = false) (hcdot : c ≠ '.') :
    eatUnsigned (ip ++ dp ++ c :: t) = some (ip, dp, c :: t) := by
  obtain ⟨hcs, hip, hipd, hdp⟩ := eatUnsigned_inv h
  rcases hdp with hdp | ⟨fp, hdp, hfpd⟩
  · subst hdp
    have hta := takeWhile_append_cons Char.isDigit ip c t hipd hcd
    have hda := dropWhile_append_cons Char.isDigit ip c t hipd hcd
    simp only [List.append_nil] at hta hda ⊢
    simp only [eatUnsigned, hta, hda]
    rw [if_neg hip]
    rw [if_neg (by simp [hcdot] : ¬(c :: t).head? = some '.')]
  · subst hdp
    have hta := takeWhile_append_cons Char.isDigit ip '.' (fp ++ c :: t) hipd dot_not_digit
    have hda := dropWhile_append_cons Char.isDigit ip '.' (fp ++ c :: t) hipd dot_not_digit
    have htf := takeWhile_append_cons Char.isDigit fp c t hfpd hcd
    have hdf := dropWhile_append_cons Char.isDigit fp c t hfpd hcd
    have hform : ip ++ ('.' :: fp) ++ c :: t = ip ++ '.' :: (fp ++ c :: t) := by simp
    rw [hform]
    simp only [eatUnsigned, hta, hda]
    rw [if_neg hip]
    simp [htf, hdf]

/-- A successful number match consumed exactly its token, and matching the
token again in front of any non-digit, non-dot boundary yields the same
token and value. -/
theorem eatNumber_spec {cs n : List Char} {v : ℚ} {rest : List Char}
    (h : eatNumber cs = some (n, v, rest)) :
    cs = n ++ rest ∧
    ∀ (c : Char) (t : List Char), c.isDigit = false → c ≠ '.' →
      eatNumber (n ++ c :: t) = some (n, v, c :: t) := by
  unfold eatNumber at h
  by_cases hs : cs.head? = some '-'
  · rw [if_pos hs] at h
    cases hu : eatUnsigned cs.tail with
    | none => rw [hu] at h; exact absurd h (by simp)
    | some x =>
      obtain ⟨ip, dp, r⟩ := x
      rw [hu] at h
      simp only [Option.some.injEq, Prod.mk.injEq] at h
      obtain ⟨hn, hv, hr⟩ := h
      obtain ⟨hcs, hip, hipd, hdp⟩ := eatUnsigned_inv hu
      obtain ⟨cs', rfl⟩ : ∃ cs', cs = '-' :: cs' := by
        cases cs with
        | nil => exact absurd hs (by simp)
        | cons a as =>
          simp only [List.head?, Option.some.injEq] at hs
          exact ⟨as, by rw [hs]⟩
      simp only [List.tail_cons] at hcs hu
      constructor
      · rw [← hn, ← hr, hcs]
        simp
      · intro c t hcd hcdot
        have hrep := eatUnsigned_replay hu c t hcd hcdot
        rw [← hn, ← hv]
        have hform : ('-' :: (ip ++ dp)) ++ c :: t = '-' :: (ip ++ dp ++ c :: t) := by simp
        rw [hform]
        unfold eatNumber
        rw [if_pos (by simp : ('-' :: (ip ++ dp ++ c :: t)).head? = some '-')]
        simp only [List.tail_cons]
        rw [hrep]
  · rw [if_neg hs] at h
    cases hu : eatUnsigned cs with
    | none => rw [hu] at h; exact absurd h (by simp)
    | some x =>
      obtain ⟨ip, dp, r⟩ := x
      rw [hu] at h
      simp only [Option.some.injEq, Prod.mk.injEq] at h
      obtain ⟨hn, hv, hr⟩ := h
      obtain ⟨hcs, hip, hipd, hdp⟩ := eatUnsigned_inv hu
      obtain ⟨i0, ip', hip0⟩ : ∃ i0 ip', ip = i0 :: ip' := by
        cases hi : ip with
        | nil => exact absurd hi hip
        | cons a as => exact ⟨a, as, rfl⟩
      have hi0d : i0.isDigit = true := hipd i0 (hip0 ▸ List.mem_cons_self i0 ip')
      have hi0 : i0 ≠ '-' := fun hh => by
        rw [hh] at hi0d; exact absurd hi0d (by decide)
      constructor
      · rw [← hn, ← hr, hcs]
      · intro c t hcd hcdot
        have hrep := eatUnsigned_replay hu c t hcd hcdot
        rw [← hn, ← hv]
        have hform : (ip ++ dp) ++ c :: t = ip ++ dp ++ c :: t := by simp
        rw [hform]
        unfold eatNumber
        rw [if_neg (by rw [hip0]; simp [hi0] : ¬(ip ++ dp ++ c :: t).head? = some '-')]
        rw [hrep]

theorem comma_not_digit : (',' : Char).isDigit = false := by decide

theorem comma_not_dot : (',' : Char) ≠ '.' := by decide

theorem closeBrace_not_digit : ('\x7d' : Char).isDigit = false := by decide

theorem closeBrace_not_dot : ('\x7d' : Char) ≠ '.' := by decide

/-- A successful tag match consumed exactly the matched characters, and
re-matching at the start of the matched characters succeeds identically
whatever follows them. -/
theorem matchTagAt_spec {cs m : List Char} {la ln : ℚ} {rest : List Char}
    (h : matchTagAt cs = some (m, la, ln, rest)) :
    cs = m ++ rest ∧ ∀ t, matchTagAt (m ++ t) = some (m, la, ln, t) := by
  unfold matchTagAt at h
  split at h
  next => simp at h
  next cs1 h1 =>
  split at h
  next => simp at h
  next n1 la1 cs2 h2 =>
  split at h
  next => simp at h
  next cs3 h3 =>
  split at h
  next => simp at h
  next cs5 h4 =>
  split at h
  next => simp at h
  next n2 ln2 cs6 h5 =>
  split at h
  next => simp at h
  next cs7 h6 =>
              simp only [Option.some.injEq, Prod.mk.injEq] at h
              obtain ⟨hm, hla, hln, hrest⟩ := h
              have hcs1 : cs = tagOpen ++ cs1 := eatLit_eq_append _ h1
              have hen1 := eatNumber_spec h2
              have hcs2 : cs2 = ',' :: cs3 := eatLit_eq_append _ h3
              have hws : cs3.takeWhile isJsSpace ++ cs3.dropWhile isJsSpace = cs3 :=
                List.takeWhile_append_dropWhile _ _
              have hwsAll : ∀ x ∈ cs3.takeWhile isJsSpace, isJsSpace x = true :=
                fun x hx => List.mem_takeWhile_imp hx
              have hcs4 : cs3.dropWhile isJsSpace = lngLit ++ cs5 := eatLit_eq_append _ h4
              have hen2 := eatNumber_spec h5
              have hcs6 : cs6 = tagClose ++ cs7 := eatLit_eq_append _ h6
              constructor
              · calc cs = tagOpen ++ (n1 ++ ',' :: cs3) := by
                      rw [hcs1, hen1.1, hcs2]
                  _ = tagOpen ++ (n1 ++ ',' ::
                        (cs3.takeWhile isJsSpace ++ cs3.dropWhile isJsSpace)) := by
                      rw [hws]
                  _ = tagOpen ++ (n1 ++ ',' :: (cs3.takeWhile isJsSpace ++
                        (lngLit ++ (n2 ++ (tagClose ++ cs7))))) := by
                      rw [hcs4, hen2.1, hcs6]
                  _ = (tagOpen ++ n1 ++ ',' ::
                        (cs3.takeWhile isJsSpace ++ lngLit ++ n2 ++ tagClose)) ++ cs7 := by
                      simp
                  _ = m ++ rest := by rw [hm, hrest]
              · intro t
                have hrep1 := hen1.2 ','
                  (cs3.takeWhile isJsSpace ++ (lngLit ++ (n2 ++ (tagClose ++ t))))
                  comma_not_digit comma_not_dot
                have hrep2 := hen2.2 '\x7d' ('\x7d' :: t)
                  closeBrace_not_digit closeBrace_not_dot
                have hLspace : isJsSpace 'L' = false := by decide
                have hwsT : (cs3.takeWhile isJsSpace ++
                    ('L' :: ('N' :: 'G' :: ':' :: (n2 ++ ('\x7d' :: ('\x7d' :: t)))))).takeWhile isJsSpace =
                    cs3.takeWhile isJsSpace :=
                  takeWhile_append_cons _ _ _ _ hwsAll hLspace
                have hwsD : (cs3.takeWhile isJsSpace ++
                    ('L' :: ('N' :: 'G' :: ':' :: (n2 ++ ('\x7d' :: ('\x7d' :: t)))))).dropWhile isJsSpace =
                    'L' :: ('N' :: 'G' :: ':' :: (n2 ++ ('\x7d' :: ('\x7d' :: t)))) :=
                  dropWhile_append_cons _ _ _ _ hwsAll hLspace
                subst hm
                subst hla
                subst hln
                simp only [tagOpen, lngLit, tagClose, List.append_assoc,
                  List.cons_append, List.nil_append] at hrep1 hrep2 hwsT hwsD ⊢
                simp only [matchTagAt, tagOpen, lngLit, tagClose, List.append_assoc,
                  List.cons_append, List.nil_append, eatLit_append, eatLit, if_true,
                  eq_self_iff_true, hrep1, hwsT, hwsD, hrep2]

/-- The leftmost tag match decomposes the text, and no earlier position
matches. -/
theorem findTag_spec {cs p m : List Char} {la ln : ℚ} {s : List Char}
    (h : findTag cs = some (p, m, la, ln, s)) :
    cs = p ++ m ++ s ∧ matchTagAt (m ++ s) = some (m, la, ln, s) ∧
    (∀ t, matchTagAt (m ++ t) = some (m, la, ln, t)) ∧
    ∀ i, i < p.length → matchTagAt (cs.drop i) = none := by
  induction cs generalizing p with
  | nil => simp [findTag] at h
  | cons c cs ih =>
    rw [findTag] at h
    cases h1 : matchTagAt (c :: cs) with
    | some x =>
      obtain ⟨m1, la1, ln1, r1⟩ := x
      rw [h1] at h
      simp only [Option.some.injEq, Prod.mk.injEq] at h
      obtain ⟨hp, hm, hla, hln, hs⟩ := h
      subst hp; subst hm; subst hla; subst hln; subst hs
      obtain ⟨hdecomp, hreplay⟩ := matchTagAt_spec h1
      refine ⟨by simpa using hdecomp, by rw [← hdecomp]; exact h1, hreplay, ?_⟩
      intro i hi
      simp at hi
    | none =>
      rw [h1] at h
      cases h2 : findTag cs with
      | none => rw [h2] at h; exact absurd h (by simp)
      | some x =>
        obtain ⟨p1, m1, la1, ln1, s1⟩ := x
        rw [h2] at h
        simp only [Option.some.injEq, Prod.mk.injEq] at h
        obtain ⟨hp, hm, hla, hln, hs⟩ := h
        subst hm; subst hla; subst hln; subst hs
        obtain ⟨hdec, hmatch, hreplay, hnone⟩ := ih h2
        subst hp
        refine ⟨by simp [hdec], hmatch, hreplay, ?_⟩
        intro i hi
        cases i with
        | zero => simpa using h1
        | succ j =>
          simp only [List.length_cons, Nat.succ_lt_succ_iff] at hi
          simpa using hnone j hi

theorem isPrefixList_iff (n h : List Char) :
    isPrefixList n h = true ↔ ∃ t, h = n ++ t := by
  induction n generalizing h with
  | nil => simp [isPrefixList]
  | cons c cs ih =>
    cases h with
    | nil =>
      simp only [isPrefixList, Bool.false_eq_true, false_iff]
      rintro ⟨t, ht⟩
      exact List.noConfusion ht
    | cons x xs =>
      simp only [isPrefixList, Bool.and_eq_true, decide_eq_true_eq, ih]
      constructor
      · rintro ⟨rfl, t, rfl⟩
        exact ⟨t, rfl⟩
      · rintro ⟨t, ht⟩
        simp only [List.cons_append, List.cons.injEq] at ht
        exact ⟨ht.1.symm, t, ht.2⟩

/-- The call `text.replace(match[0], '')` removes exactly the matched span: the
leftmost regex match is also the first occurrence of the matched
substring, because an earlier occurrence would itself be a match. -/
theorem jsReplaceFirst_startsWith (needle hay : List Char)
    (h : isPrefixList needle hay = true) :
    jsReplaceFirst hay needle = hay.drop needle.length := by
  cases hay with
  | nil =>
    obtain ⟨t, ht⟩ := (isPrefixList_iff _ _).1 h
    have : needle = [] := by
      cases needle with
      | nil => rfl
      | cons a as => exact absurd ht.symm (by simp)
    rw [this]
    rfl
  | cons c cs => simp [jsReplaceFirst, h]

theorem jsReplaceFirst_of_findTag {cs p m : List Char} {la ln : ℚ} {s : List Char}
    (h : findTag cs = some (p, m, la, ln, s)) :
    jsReplaceFirst cs m = p ++ s := by
  obtain ⟨hdec, hmatch, hreplay, hnone⟩ := findTag_spec h
  subst hdec
  clear h hmatch
  induction p with
  | nil =>
    rw [List.nil_append]
    rw [jsReplaceFirst_startsWith m (m ++ s) ((isPrefixList_iff m (m ++ s)).2 ⟨s, rfl⟩)]
    simp [List.drop_left']
  | cons c p ih =>
    have hnpre : isPrefixList m (c :: p ++ m ++ s) = false := by
      rw [Bool.eq_false_iff]
      intro hpre
      obtain ⟨t, ht⟩ := (isPrefixList_iff _ _).1 hpre
      have h0 := hnone 0 (by simp)
      rw [List.drop_zero] at h0
      rw [ht, hreplay t] at h0
      exact Option.noConfusion h0
    have hstep : jsReplaceFirst (c :: (p ++ m ++ s)) m =
        c :: jsReplaceFirst (p ++ m ++ s) m := by
      rw [jsReplaceFirst]
      rw [if_neg]
      simp only [Bool.not_eq_true]
      simpa using hnpre
    have hrec : jsReplaceFirst (p ++ m ++ s) m = p ++ s := by
      apply ih
      intro i hi
      have h2 := hnone (i + 1) (by simpa using Nat.succ_lt_succ hi)
      simpa using h2
    calc jsReplaceFirst (c :: p ++ m ++ s) m
        = jsReplaceFirst (c :: (p ++ m ++ s)) m := by simp
      _ = c :: jsReplaceFirst (p ++ m ++ s) m := hstep
      _ = c :: (p ++ s) := by rw [hrec]
      _ = c :: p ++ s := by simp


/-- Claim C2: for every reply text, the parser removes exactly the first
tag occurrence from the visible text and trims the result, setting the
suggested location from the two parsed numbers (for tokens matched by the
tag grammar the parse always succeeds, so the numeric-failure branch of
the claim is vacuous); with no tag the text is returned unchanged; and on
the spec example the clean text is `"Visit the tower."` with suggested
location `(48.8584, 2.2945)`. -/
theorem c2_tag_parse :
    (∀ (text p m : List Char) (la ln : ℚ) (s : List Char),
        findTag text = some (p, m, la, ln, s) →
        text = p ++ m ++ s ∧ parseReplyText text = (jsTrim (p ++ s), some (la, ln))) ∧
    (∀ text : List Char, findTag text = none → parseReplyText text = (text, none)) ∧
    parseReplyText exampleReply.data =
      ("Visit the tower.".data, some (mkRat 488584 10000, mkRat 22945 10000)) := by
  refine ⟨?_, ?_, ?_⟩
  · intro text p m la ln s h
    refine ⟨(findTag_spec h).1, ?_⟩
    have hrep := jsReplaceFirst_of_findTag h
    simp only [parseReplyText, h, hrep]
  · intro text h
    simp only [parseReplyText, h]
  · rfl

/-- Witness for C2: the universally quantified part applied to the spec
example. -/
theorem c2_tag_parse_witness :
    parseReplyText exampleReply.data =
      (jsTrim ("Visit the tower. ".data ++ []), some (mkRat 488584 10000, mkRat 22945 10000)) :=
  (c2_tag_parse.1 exampleReply.data "Visit the tower. ".data exampleTag.data
    (mkRat 488584 10000) (mkRat 22945 10000) [] (by rfl)).2

/-! ## C6: related-location extraction from citations -/

theorem collectRelated_eq_filterMap (l : List GroundingChunk) :
    collectRelated l = l.filterMap chunkCoord := by
  induction l with
  | nil => rfl
  | cons c cs ih =>
    rw [List.filterMap_cons]
    cases h : chunkCoord c with
    | none => rw [collectRelated, h, ih]
    | some p => rw [collectRelated, h, ih]

/-- Claim C6: related-location extraction keeps, in citation order,
exactly the coordinates contributed by place citations whose URI carries
a `!3d<number>!4d<number>` pair, and yields absence — not an empty
sequence — when no citation contributes; a URI containing
`!3d35.6895!4d139.6917` yields exactly that one related location, and a
web-only citation contributes nothing. -/
theorem c6_related_locations :
    (∀ chunks : List GroundingChunk,
        extractRelatedLocations (some chunks) =
          (if chunks.filterMap chunkCoord = [] then none
           else some (chunks.filterMap chunkCoord))) ∧
    extractRelatedLocations none = none ∧
    chunkCoord webOnlyChunk = none ∧
    extractRelatedLocations (some [webOnlyChunk]) = none ∧
    extractRelatedLocations (some [webOnlyChunk, tokyoChunk]) =
      some [(mkRat 356895 10000, mkRat 1396917 10000)] := by
  refine ⟨?_, rfl, rfl, rfl, rfl⟩
  intro chunks
  simp only [extractRelatedLocations, collectRelated_eq_filterMap]
  cases h : chunks.filterMap chunkCoord with
  | nil => simp [h]
  | cons x xs => simp [h]

/-! ## C4 and C5: the session store -/

theorem jsGetProp_some {m : JsVal} {k : String} {v : JsVal}
    (h : jsGetProp m k = some v) : v = getOwn m k := by
  cases m with
  | null => exact absurd h (by simp [jsGetProp])
  | undef => exact absurd h (by simp [jsGetProp])
  | bool b => simpa [jsGetProp] using h.symm
  | num n => simpa [jsGetProp] using h.symm
  | str s => simpa [jsGetProp] using h.symm
  | arr xs => simpa [jsGetProp] using h.symm
  | obj fs => simpa [jsGetProp] using h.symm

theorem jsGetProp_obj (fs : List (String × JsVal)) (k : String) :
    jsGetProp (.obj fs) k = some (lookupField fs k) := rfl

theorem getOwn_obj (fs : List (String × JsVal)) (k : String) :
    getOwn (.obj fs) k = lookupField fs k := rfl

/-- Inversion for the per-message sanitization: the output object is the
input's fields with `suggestedLocation` validated-or-cleared and
`relatedLocations` either cleared (it was nullish) or filtered. -/
theorem sanitizeMessageJs_inv {m sm : JsVal} (h : sanitizeMessageJs m = some sm) :
    sm = .obj (setField (setField (ownFields m) "suggestedLocation"
        (if isValidStoredLoc (getOwn m "suggestedLocation") then
          getOwn m "suggestedLocation" else JsVal.undef))
      "relatedLocations"
      (match getOwn m "relatedLocations" with
       | .arr xs => .arr (xs.filter isValidStoredLoc)
       | _ => JsVal.undef)) ∧
    (getOwn m "relatedLocations" = JsVal.undef ∨ getOwn m "relatedLocations" = .null ∨
     ∃ xs, getOwn m "relatedLocations" = .arr xs) := by
  unfold sanitizeMessageJs at h
  split at h
  next => simp at h
  next sug hsug =>
  split at h
  next => simp at h
  next rel hrel =>
  split at h
  next => simp at h
  next relOut hrelOut =>
  have hsugv := jsGetProp_some hsug
  have hrelv := jsGetProp_some hrel
  subst hsugv
  subst hrelv
  simp only [Option.some.injEq] at h
  split at hrelOut
  next hq =>
    simp only [Option.some.injEq] at hrelOut
    subst hrelOut
    refine ⟨?_, Or.inl hq⟩
    rw [← h, hq]
  next hq =>
    simp only [Option.some.injEq] at hrelOut
    subst hrelOut
    refine ⟨?_, Or.inr (Or.inl hq)⟩
    rw [← h, hq]
  next xs hq =>
    simp only [Option.some.injEq] at hrelOut
    subst hrelOut
    refine ⟨?_, Or.inr (Or.inr ⟨xs, hq⟩)⟩
    rw [← h, hq]
  next => exact absurd hrelOut (by simp)

theorem filter_idempotent (p : JsVal → Bool) (l : List JsVal) :
    (l.filter p).filter p = l.filter p := by
  induction l with
  | nil => rfl
  | cons x xs ih =>
    by_cases hx : p x = true
    · rw [List.filter_cons_of_pos hx, List.filter_cons_of_pos hx, ih]
    · rw [List.filter_cons_of_neg (by simp [hx]), ih]

theorem sanitizeMessageJs_keys : ("suggestedLocation" : String) ≠ "relatedLocations" := by
  decide

/-- Core of message-sanitization idempotence: an object whose
`suggestedLocation` is already validated-or-cleared and whose
`relatedLocations` is already cleared-or-filtered sanitizes to itself. -/
theorem sanitizeMessageJs_fixed (F : List (String × JsVal)) (a relOut : JsVal)
    (ha : (if isValidStoredLoc a then a else JsVal.undef) = a)
    (hrel : relOut = JsVal.undef ∨ ∃ ys, relOut = .arr ys ∧ ys.filter isValidStoredLoc = ys) :
    sanitizeMessageJs
        (.obj (setField (setField F "suggestedLocation" a) "relatedLocations" relOut)) =
      some (.obj (setField (setField F "suggestedLocation" a) "relatedLocations" relOut)) := by
  have hGs : lookupField
      (setField (setField F "suggestedLocation" a) "relatedLocations" relOut)
      "suggestedLocation" = a := by
    rw [lookupField_setField_ne _ _ _ _ sanitizeMessageJs_keys, lookupField_setField_self]
  have hGr : lookupField
      (setField (setField F "suggestedLocation" a) "relatedLocations" relOut)
      "relatedLocations" = relOut := lookupField_setField_self _ _ _
  have hcs : containsKey
      (setField (setField F "suggestedLocation" a) "relatedLocations" relOut)
      "suggestedLocation" = true :=
    containsKey_setField_mono _ _ _ _ (containsKey_setField_self _ _ _)
  have hcr : containsKey
      (setField (setField F "suggestedLocation" a) "relatedLocations" relOut)
      "relatedLocations" = true := containsKey_setField_self _ _ _
  have h1 : jsGetProp
      (.obj (setField (setField F "suggestedLocation" a) "relatedLocations" relOut))
      "suggestedLocation" = some a := by
    rw [jsGetProp_obj, hGs]
  have h2 : jsGetProp
      (.obj (setField (setField F "suggestedLocation" a) "relatedLocations" relOut))
      "relatedLocations" = some relOut := by
    rw [jsGetProp_obj, hGr]
  have hset1 := setField_of_lookup_eq _ _ _ hcs hGs
  have hset2 := setField_of_lookup_eq _ _ _ hcr hGr
  rcases hrel with hr | ⟨ys, hr, hfil⟩
  · subst hr
    simp only [sanitizeMessageJs, h1, h2, ha, ownFields, Option.some.injEq]
    rw [hset1, hset2]
  · subst hr
    simp only [sanitizeMessageJs, h1, h2, ha, ownFields, hfil, Option.some.injEq]
    rw [hset1, hset2]

/-- Sanitizing a message twice is the same as sanitizing it once. -/
theorem sanitizeMessageJs_idem {m sm : JsVal} (h : sanitizeMessageJs m = some sm) :
    sanitizeMessageJs sm = some sm := by
  obtain ⟨hsm, hrel⟩ := sanitizeMessageJs_inv h
  have hU : isValidStoredLoc JsVal.undef = false := by decide
  have ha : (if isValidStoredLoc
      (if isValidStoredLoc (getOwn m "suggestedLocation") then
        getOwn m "suggestedLocation" else JsVal.undef) then
      (if isValidStoredLoc (getOwn m "suggestedLocation") then
        getOwn m "suggestedLocation" else JsVal.undef) else JsVal.undef) =
      (if isValidStoredLoc (getOwn m "suggestedLocation") then
        getOwn m "suggestedLocation" else JsVal.undef) := by
    by_cases hv : isValidStoredLoc (getOwn m "suggestedLocation") = true
    · simp [hv]
    · simp only [Bool.not_eq_true] at hv
      simp [hv, hU]
  rw [hsm]
  apply sanitizeMessageJs_fixed _ _ _ ha
  rcases hrel with hr | hr | ⟨xs, hr⟩
  · rw [hr]
    exact Or.inl rfl
  · rw [hr]
    exact Or.inl rfl
  · rw [hr]
    exact Or.inr ⟨xs.filter isValidStoredLoc, rfl, filter_idempotent _ _⟩

/-- The map `mapOrThrow` preserves any pointwise fixed-point property. -/
theorem mapOrThrow_idem {f : JsVal → Option JsVal}
    (hf : ∀ x y, f x = some y → f y = some y) :
    ∀ {l r : List JsVal}, mapOrThrow f l = some r → mapOrThrow f r = some r := by
  intro l
  induction l with
  | nil =>
    intro r h
    simp only [mapOrThrow, Option.some.injEq] at h
    rw [← h]
    rfl
  | cons x xs ih =>
    intro r h
    unfold mapOrThrow at h
    split at h
    next => simp at h
    next y hy =>
    split at h
    next => simp at h
    next ys hys =>
    simp only [Option.some.injEq] at h
    rw [← h]
    have h1 := hf x y hy
    have h2 := ih hys
    unfold mapOrThrow
    rw [h1, h2]

/-- Inversion for the per-session sanitization. -/
theorem sanitizeSessionJs_inv {s ss : JsVal} (h : sanitizeSessionJs s = some ss) :
    ∃ xs ys, getOwn s "messages" = .arr xs ∧ mapOrThrow sanitizeMessageJs xs = some ys ∧
      ss = .obj (setField (ownFields s) "messages" (.arr ys)) := by
  unfold sanitizeSessionJs at h
  split at h
  next => simp at h
  next msgs hmsgs =>
  cases msgs with
  | arr xs =>
    have hv := jsGetProp_some hmsgs
    replace h : (match mapOrThrow sanitizeMessageJs xs with
        | none => none
        | some ys => some (JsVal.obj (setField (ownFields s) "messages" (.arr ys)))) =
        some ss := h
    split at h
    next => simp at h
    next ys hys =>
      simp only [Option.some.injEq] at h
      exact ⟨xs, ys, hv.symm, hys, h.symm⟩
  | undef => exact Option.noConfusion h
  | null => exact Option.noConfusion h
  | bool b => exact Option.noConfusion h
  | num n => exact Option.noConfusion h
  | str s2 => exact Option.noConfusion h
  | obj fs => exact Option.noConfusion h

/-- Sanitizing a session twice is the same as sanitizing it once. -/
theorem sanitizeSessionJs_idem {s ss : JsVal} (h : sanitizeSessionJs s = some ss) :
    sanitizeSessionJs ss = some ss := by
  obtain ⟨xs, ys, hmsgs, hmap, hss⟩ := sanitizeSessionJs_inv h
  have hGm : lookupField (setField (ownFields s) "messages" (.arr ys)) "messages" =
      .arr ys := lookupField_setField_self _ _ _
  have hcm : containsKey (setField (ownFields s) "messages" (.arr ys)) "messages" = true :=
    containsKey_setField_self _ _ _
  have h1 : jsGetProp (.obj (setField (ownFields s) "messages" (.arr ys))) "messages" =
      some (.arr ys) := by
    rw [jsGetProp_obj, hGm]
  have h2 : mapOrThrow sanitizeMessageJs ys = some ys :=
    mapOrThrow_idem (fun _ _ hxy => sanitizeMessageJs_idem hxy) hmap
  have h3 : ownFields (JsVal.obj (setField (ownFields s) "messages" (.arr ys))) =
      setField (ownFields s) "messages" (.arr ys) := rfl
  rw [hss]
  simp only [sanitizeSessionJs, h1, h2, h3, Option.some.injEq, JsVal.obj.injEq]
  rw [setField_of_lookup_eq _ _ _ hcm hGm]

/-- Claim C5: sanitization is idempotent — applying the per-message
sanitization (replace an invalid `suggestedLocation` with absent, filter
`relatedLocations` through the validator preserving order) to a session
collection that it has already produced returns the collection
unchanged. -/
theorem c5_sanitize_idempotent (ss r : List JsVal)
    (h : mapOrThrow sanitizeSessionJs ss = some r) :
    mapOrThrow sanitizeSessionJs r = some r :=
  mapOrThrow_idem (fun _ _ hxy => sanitizeSessionJs_idem hxy) h

/-- Witness for C5 on a concrete stored session with one corrupted
message. -/
theorem c5_sanitize_idempotent_witness :
    mapOrThrow sanitizeSessionJs [tinySessionJsClean] = some [tinySessionJsClean] :=
  c5_sanitize_idempotent [tinySessionJs] [tinySessionJsClean] (by rfl)

/-- Claim C4: on load, a parseable multi-session array takes precedence
and is returned sanitized; otherwise (sessions key absent, or parsed to a
non-array) a legacy non-empty message array is sanitized and wrapped into
exactly one freshly generated session titled `"Restored Chat"`; if
neither record exists, or either one fails to parse, the empty collection
is returned — the loader is a total function, so no exception escapes.
Per-message sanitization keeps every field other than the two location
fields intact, replaces an invalid `suggestedLocation` with absent, and
filters `relatedLocations` element-wise. -/
theorem c4_load_migrate_sanitize :
    (∀ (old : Option (Option JsVal)) (uuid : String) (now : Int) (ss r : List JsVal),
        mapOrThrow sanitizeSessionJs ss = some r →
        loadSessions (some (some (.arr ss))) old uuid now = r) ∧
    (∀ (uuid : String) (now : Int) (ms sm : List JsVal),
        ms ≠ [] → mapOrThrow sanitizeMessageJs ms = some sm →
        loadSessions none (some (some (.arr ms))) uuid now =
          [mkRestoredSession uuid sm now]) ∧
    (∀ (v : JsVal) (uuid : String) (now : Int) (ms sm : List JsVal),
        isJsArr v = false → ms ≠ [] → mapOrThrow sanitizeMessageJs ms = some sm →
        loadSessions (some (some v)) (some (some (.arr ms))) uuid now =
          [mkRestoredSession uuid sm now]) ∧
    (∀ (uuid : String) (now : Int),
        loadSessions none none uuid now = [] ∧
        loadSessions none (some none) uuid now = [] ∧
        (∀ old, loadSessions (some none) old uuid now = [])) ∧
    (∀ (m sm : JsVal) (k : String), sanitizeMessageJs m = some sm →
        ¬k = "suggestedLocation" → ¬k = "relatedLocations" →
        getOwn sm k = getOwn m k) ∧
    (∀ (m sm : JsVal), sanitizeMessageJs m = some sm →
        getOwn sm "suggestedLocation" =
          (if isValidStoredLoc (getOwn m "suggestedLocation") then
            getOwn m "suggestedLocation" else JsVal.undef)) ∧
    (∀ (m sm : JsVal) (xs : List JsVal), sanitizeMessageJs m = some sm →
        getOwn m "relatedLocations" = .arr xs →
        getOwn sm "relatedLocations" = .arr (xs.filter isValidStoredLoc)) := by
  refine ⟨?_, ?_, ?_, ?_, ?_, ?_, ?_⟩
  · intro old uuid now ss r h
    simp only [loadSessions, h, Option.getD]
  · intro uuid now ms sm hne h
    obtain ⟨m0, ms', rfl⟩ : ∃ m0 ms', ms = m0 :: ms' := by
      cases ms with
      | nil => exact absurd rfl hne
      | cons a as => exact ⟨a, as, rfl⟩
    simp only [loadSessions, legacyLoad, jsTruthy, if_true, List.length_cons, h,
      Option.getD]
    rw [if_pos (Nat.succ_pos _)]
  · intro v uuid now ms sm hv hne h
    obtain ⟨m0, ms', rfl⟩ : ∃ m0 ms', ms = m0 :: ms' := by
      cases ms with
      | nil => exact absurd rfl hne
      | cons a as => exact ⟨a, as, rfl⟩
    cases v with
    | arr xs => simp [isJsArr] at hv
    | undef =>
      simp only [loadSessions, legacyLoad, jsTruthy, if_true, List.length_cons, h,
        Option.getD]
      rw [if_pos (Nat.succ_pos _)]
    | null =>
      simp only [loadSessions, legacyLoad, jsTruthy, if_true, List.length_cons, h,
        Option.getD]
      rw [if_pos (Nat.succ_pos _)]
    | bool b =>
      simp only [loadSessions, legacyLoad, jsTruthy, if_true, List.length_cons, h,
        Option.getD]
      rw [if_pos (Nat.succ_pos _)]
    | num n =>
      simp only [loadSessions, legacyLoad, jsTruthy, if_true, List.length_cons, h,
        Option.getD]
      rw [if_pos (Nat.succ_pos _)]
    | str s2 =>
      simp only [loadSessions, legacyLoad, jsTruthy, if_true, List.length_cons, h,
        Option.getD]
      rw [if_pos (Nat.succ_pos _)]
    | obj fs =>
      simp only [loadSessions, legacyLoad, jsTruthy, if_true, List.length_cons, h,
        Option.getD]
      rw [if_pos (Nat.succ_pos _)]
  · intro uuid now
    exact ⟨rfl, rfl, fun old => rfl⟩
  · intro m sm k h hk1 hk2
    obtain ⟨hsm, _⟩ := sanitizeMessageJs_inv h
    rw [hsm, getOwn_obj]
    rw [lookupField_setField_ne _ _ _ _ hk2, lookupField_setField_ne _ _ _ _ hk1]
    rfl
  · intro m sm h
    obtain ⟨hsm, _⟩ := sanitizeMessageJs_inv h
    rw [hsm, getOwn_obj]
    rw [lookupField_setField_ne _ _ _ _ sanitizeMessageJs_keys, lookupField_setField_self]
  · intro m sm xs h hxs
    obtain ⟨hsm, _⟩ := sanitizeMessageJs_inv h
    rw [hsm, getOwn_obj]
    rw [lookupField_setField_self, hxs]

/-- Witness for C4: a legacy blob holding one message with a corrupted
`suggestedLocation` migrates into one `"Restored Chat"` session whose
message has the location cleared and all other fields intact. -/
theorem c4_load_migrate_sanitize_witness :
    loadSessions none (some (some (.arr [corruptLegacyMsg]))) "fresh-id" 7 =
      [mkRestoredSession "fresh-id" [corruptLegacyMsgClean] 7] :=
  c4_load_migrate_sanitize.2.1 "fresh-id" 7 [corruptLegacyMsg] [corruptLegacyMsgClean]
    (by simp) (by rfl)

end GeoChat
